import Mathlib

/-!
Shallow embedding of `src/create-tag.py`, the AWS tag-plan generator.

Conventions used throughout:
* Python strings that may be `None` are modelled as `String`, with `""`
  standing for an absent value; the source only ever tests such values for
  truthiness (`if not arn`, `if name_value:`), and `None` and `""` are both
  falsy, so the quotient is faithful.
* A Python `set` of strings (the match-key set, the `written` row set) is
  modelled as a duplicate-free `List`, built in insertion order; the source
  only relies on membership and, for `match_keys`, on some iteration order.
* A Python `dict` (the `defaultdict(list)` of rules) is modelled as an
  association list in key-insertion order, which is Python's iteration order.
* The unguarded `arn.split(":")[3]` of `write_plan` is modelled by `Except`:
  the embedding returns `PlanError.indexError` exactly where the source would
  raise `IndexError`.
-/

/-- One tagging rule, the dict `{"Key": ..., "Value": ..., "Partial": ...}`
built by `load_tag_rules`.  `isPart` is the source's `"Partial"` flag. -/
structure TagRule where
  key : String
  value : String
  isPart : Bool
deriving DecidableEq

/-- A tag key/value pair as attached to a resource (`{"Key": ..., "Value": ...}`). -/
structure Tag where
  key : String
  value : String
deriving DecidableEq

/-- Projection used when a rule is emitted: the source builds
`{"Key": rule["Key"], "Value": rule["Value"]}`. -/
def toTag (r : TagRule) : Tag := ⟨r.key, r.value⟩

deriving instance DecidableEq for Except

/-- The rule map `tag_map : defaultdict(list)` of `load_tag_rules`, as an
association list in key-insertion order. -/
abbrev TagMap : Type := List (String × List TagRule)

/-- `tag_rules.get(k, [])`. -/
def tmFind (m : TagMap) (k : String) : List TagRule :=
  match List.find? (fun p => p.1 == k) m with
  | some p => p.2
  | none => []

/-- `tag_map[k].append(r)` on a `defaultdict(list)`: appends to the existing
entry, or inserts a fresh key at the end (Python dict insertion order). -/
def tmAppend (m : TagMap) (k : String) (r : TagRule) : TagMap :=
  match m with
  | [] => [(k, [r])]
  | (k0, l0) :: rest =>
    if k0 == k then (k0, l0 ++ [r]) :: rest
    else (k0, l0) :: tmAppend rest k r

/-- A resource record as consumed by `write_plan`: `Arn`, `Service`,
`ResourceType` and the attached `Tags` list. -/
structure Resource where
  arn : String
  service : String
  resourceType : String
  tags : List Tag
deriving DecidableEq

/-- Python's `s.lower()`.  `Char.toLower` lowers only ASCII letters; every
string this program compares is ASCII, so the quotient is faithful. -/
def pyLower (s : String) : String := ⟨s.data.map Char.toLower⟩

/-- Python's `s.startswith(pre)`. -/
def pyStartsWith (s pre : String) : Bool := List.isPrefixOf pre.data s.data

/-- Python's `s.endswith(suf)`. -/
def pyEndsWith (s suf : String) : Bool := List.isSuffixOf suf.data s.data

/-- Python's `s.strip()` (whitespace on both ends). -/
def pyTrim (s : String) : String :=
  ⟨(((s.data.dropWhile Char.isWhitespace).reverse).dropWhile Char.isWhitespace).reverse⟩

/-- Python's `s[1:]` (strings are indexed by characters). -/
def pyDrop1 (s : String) : String := ⟨s.data.drop 1⟩

/-- Splitting a character list at every occurrence of `sep`; the backbone of
Python's `s.split(sep)` for a one-character separator. -/
def splitChar (sep : Char) : List Char → List (List Char)
  | [] => [[]]
  | c :: rest =>
    match splitChar sep rest with
    | [] => [[c]]
    | h :: t => if c == sep then [] :: h :: t else (c :: h) :: t

/-- Python's `s.split(":")`. -/
def pySplitColon (s : String) : List String := (splitChar ':' s.data).map (fun l => ⟨l⟩)

/-- Python's `":".join(ls)`. -/
def pyJoinColon (ls : List String) : String := ⟨List.intercalate [':'] (ls.map String.data)⟩

/-- Python's substring test `pat in s`, on character lists. -/
def listIn (pat : List Char) : List Char → Bool
  | [] => pat.isEmpty
  | c :: rest => List.isPrefixOf pat (c :: rest) || listIn pat rest

/-- Python's substring test `pat in s` on strings. -/
def strIn (pat s : String) : Bool := listIn pat.data s.data

/-- Adding an element to a Python `set`, modelled as an insertion-ordered
duplicate-free list. -/
def setAdd (l : List String) (s : String) : List String :=
  if s ∈ l then l else l ++ [s]

/-- The type key added by `get_match_keys`: the lower-cased `subtype` when it
already contains `:`, else `service.lower() + ":" + subtype.lower()`. -/
def typeKeyOf (service subtype : String) : String :=
  let st := pyLower subtype
  if st.data.contains ':' then st else pyLower service ++ ":" ++ st

/-- `get_match_keys(service, subtype, arn, name)` (source lines 117–130). -/
def get_match_keys (service subtype arn name : String) : List String :=
  let keys : List String := []
  let keys := if arn ≠ "" then setAdd keys arn else keys
  let keys := if name ≠ "" then setAdd keys name else keys
  let keys := if subtype ≠ "" then setAdd keys (typeKeyOf service subtype) else keys
  setAdd keys (pyLower service)

/-- `get_resource_name(tags)`: the value of the first tag whose key is
exactly `"Name"` (source lines 132–136). -/
def get_resource_name : List Tag → Option String
  | [] => none
  | t :: ts => if t.key == "Name" then some t.value else get_resource_name ts

/-- The `name_value` used by `write_plan`; `none` collapses to `""`
(both are falsy in the source). -/
def nameValOf (res : Resource) : String := (get_resource_name res.tags).getD ""

/-- Step 1 of the matcher (source lines 188–192): for every key in the
match-key set, every non-partial rule stored under that key is emitted. -/
def exactTags (rules : TagMap) (keys : List String) : List Tag :=
  keys.flatMap (fun k => ((tmFind rules k).filter (fun r => !r.isPart)).map toTag)

/-- Step 2 of the matcher (source lines 193–198): when the resource has a
name, every partial rule whose (lower-cased) filter key is a substring of the
name — the source's `rule_key in name_value` — is emitted. -/
def partialNameTags (rules : TagMap) (name : String) : List Tag :=
  if name = "" then []
  else
    List.flatMap rules
      (fun p => (p.2.filter (fun r => r.isPart && strIn p.1 name)).map toTag)

/-- Python's `s.split(":", 2)`. -/
def split2 (s : String) : List String :=
  let ps := pySplitColon s
  if ps.length ≤ 3 then ps
  else ps.take 2 ++ [pyJoinColon (ps.drop 2)]

/-- The tag-value test of step 3 (source lines 204–221): a leading `~` makes
it a case-insensitive substring test, otherwise case-insensitive equality. -/
def tagValueMatches (tv rv : String) : Bool :=
  if pyStartsWith tv "~" then strIn (pyLower (pyDrop1 tv)) (pyLower rv)
  else pyLower rv == pyLower tv

/-- Recognizing a tag-based filter key (source lines 201–204): it must start
with `"tag:"` and `split(":", 2)` must give exactly three parts; the result
is the pair `(tag_key, tag_value)` of parts 1 and 2. -/
def parseTagFilter (k : String) : Option (String × String) :=
  if pyStartsWith k "tag:" then
    match split2 k with
    | [_, tk, tv] => some (tk, tv)
    | _ => none
  else none

/-- The contribution of one rule-map entry to step 3 (source lines 200–225):
for a key of the form `tag:<k>:<v>`, every resource tag with matching key and
value causes the whole rule list to be emitted once. -/
def tagRuleTagsFor (resTags : List Tag) (k : String) (rl : List TagRule) : List Tag :=
  match parseTagFilter k with
  | some (tk, tv) =>
    List.flatMap resTags
      (fun tg =>
        if pyLower tg.key == pyLower tk && tagValueMatches tv tg.value then
          rl.map toTag
        else [])
  | none => []

/-- Step 3 of the matcher: the `tag:`-keyed rules, in rule-map order. -/
def tagRuleTags (rules : TagMap) (resTags : List Tag) : List Tag :=
  List.flatMap rules (fun p => tagRuleTagsFor resTags p.1 p.2)

/-- The `tags` list accumulated by steps 1–3 of `write_plan` before the
catch-all is considered (source lines 187–225). -/
def matchTagsPre (rules : TagMap) (res : Resource) : List Tag :=
  exactTags rules (get_match_keys res.service res.resourceType res.arn (nameValOf res))
    ++ partialNameTags rules (nameValOf res)
    ++ tagRuleTags rules res.tags

/-- The rules stored under the literal key `"all"`, as emitted tags. -/
def allRuleTags (rules : TagMap) : List Tag := (tmFind rules "all").map toTag

/-- The full per-resource tag list of `write_plan`: `if tags:` append
`tag_rules.get("all", [])` (source lines 227–228); an empty step 1–3 result
yields no tags at all. -/
def matchTags (rules : TagMap) (res : Resource) : List Tag :=
  if (matchTagsPre rules res).isEmpty then []
  else matchTagsPre rules res ++ allRuleTags rules

/-- One output row `(ResourceARN, TagKey, TagValue)`. -/
abbrev Row : Type := String × String × String

/-- The inner write loop of `write_plan` (source lines 229–236): emit each
row not yet in `written`, adding it to `written` as we go.  Returns the
newly written rows and the updated `written` set. -/
def emitRows (arn : String) : List Tag → List Row → List Row × List Row
  | [], w => ([], w)
  | t :: ts, w =>
    if ((arn, t.key, t.value) : Row) ∈ w then emitRows arn ts w
    else
      (((arn, t.key, t.value) : Row) :: (emitRows arn ts (w ++ [(arn, t.key, t.value)])).1,
        (emitRows arn ts (w ++ [(arn, t.key, t.value)])).2)

/-- The one failure mode of the planning loop: the unguarded
`arn.split(":")[3]` (source line 181). -/
inductive PlanError where
  | indexError
deriving DecidableEq

/-- The resource loop of `write_plan` (source lines 174–238), threading the
`written` set.  Resources with a falsy `Arn` or `Service` are skipped; the
region of the identifier is the 4th `:`-field, raising `IndexError` when the
identifier has fewer than four fields; a present, different region skips the
resource; otherwise the matched tags are deduplicated and appended. -/
def writePlanAux (rules : TagMap) (regionFilter : String) :
    List Resource → List Row → Except PlanError (List Row)
  | [], _ => .ok []
  | res :: rs, w =>
    if res.arn == "" || res.service == "" then writePlanAux rules regionFilter rs w
    else
      match List.get? (pySplitColon res.arn) 3 with
      | none => .error .indexError
      | some reg =>
        if reg != "" && reg != regionFilter then writePlanAux rules regionFilter rs w
        else
          match writePlanAux rules regionFilter rs (emitRows res.arn (matchTags rules res) w).2 with
          | .ok rest => .ok ((emitRows res.arn (matchTags rules res) w).1 ++ rest)
          | .error e => .error e

/-- `write_plan(resources, tag_rules, output_csv, region_filter)`: the data
rows written after the header, in order. -/
def writePlan (rules : TagMap) (regionFilter : String) (resources : List Resource) :
    Except PlanError (List Row) :=
  writePlanAux rules regionFilter resources []

/-- A parsed CSV row as produced by `csv.DictReader`: a missing header column
makes the corresponding field `none` for every row (Python raises `KeyError`
on access). -/
structure RawRow where
  Filter : Option String
  TagKey : Option String
  TagValue : Option String
deriving DecidableEq

/-- The fatal input-format failures of rule loading: a path not ending in
`.csv` (source lines 64–67, `sys.exit(1)`) and a missing required column
(an uncaught `KeyError` on `row["Filter"]`, `row["TagKey"]` or
`row["TagValue"]`). -/
inductive InputFormatError where
  | badExtension
  | missingColumn
deriving DecidableEq

/-- The row loop of `load_tag_rules` (source lines 69–82): skip empty and
`#`-comment filters, strip a leading `~` into the `Partial` flag, lower-case
the filter key, and append the rule. -/
def loadTagRulesAux : List RawRow → TagMap → Except InputFormatError TagMap
  | [], m => .ok m
  | r :: rs, m =>
    match r.Filter with
    | none => .error .missingColumn
    | some f0 =>
      if pyTrim f0 == "" || pyStartsWith (pyTrim f0) "#" then loadTagRulesAux rs m
      else
        match r.TagKey, r.TagValue with
        | some k, some v =>
          if pyStartsWith (pyTrim f0) "~" then
            loadTagRulesAux rs (tmAppend m (pyLower (pyDrop1 (pyTrim f0))) ⟨k, v, true⟩)
          else
            loadTagRulesAux rs (tmAppend m (pyLower (pyTrim f0)) ⟨k, v, false⟩)
        | _, _ => .error .missingColumn

/-- `load_tag_rules(path)` (source lines 62–83): reject a non-`.csv` path,
then fold the rows. -/
def load_tag_rules (path : String) (rows : List RawRow) : Except InputFormatError TagMap :=
  if !pyEndsWith path ".csv" then .error .badExtension
  else loadTagRulesAux rows []

/-- The failures of the modelled `main` pipeline. -/
inductive MainError where
  | fmt (e : InputFormatError)
  | plan (e : PlanError)
deriving DecidableEq

/-- The `main` pipeline as far as the core is concerned (source lines
264–280): rules are loaded first; a loading failure aborts before any
resource is fetched or processed, so the `resources` argument is never
consulted on that path. -/
def runMain (path : String) (rows : List RawRow) (regionFilter : String)
    (resources : List Resource) : Except MainError (List Row) :=
  match load_tag_rules path rows with
  | .error e => .error (.fmt e)
  | .ok rules =>
    match writePlan rules regionFilter resources with
    | .ok out => .ok out
    | .error e => .error (.plan e)

/-- Recognizer for an `InputFormatError` outcome of the pipeline. -/
def isFmtError : Except MainError (List Row) → Bool
  | .error (.fmt _) => true
  | _ => false

theorem emitRows_snd (arn : String) (ts : List Tag) (w : List Row) :
    (emitRows arn ts w).2 = w ++ (emitRows arn ts w).1 := by
  induction ts generalizing w with
  | nil => simp [emitRows]
  | cons t ts ih =>
    by_cases h : ((arn, t.key, t.value) : Row) ∈ w
    · simp only [emitRows, if_pos h]
      exact ih w
    · simp only [emitRows, if_neg h]
      rw [ih]
      simp

theorem emitRows_nodup (arn : String) (ts : List Tag) (w : List Row) :
    (emitRows arn ts w).1.Nodup ∧ ∀ r ∈ (emitRows arn ts w).1, r ∉ w := by
  induction ts generalizing w with
  | nil => simp [emitRows]
  | cons t ts ih =>
    by_cases h : ((arn, t.key, t.value) : Row) ∈ w
    · simp only [emitRows, if_pos h]
      exact ih w
    · simp only [emitRows, if_neg h]
      obtain ⟨hn, hd⟩ := ih (w ++ [(arn, t.key, t.value)])
      refine ⟨List.nodup_cons.mpr ⟨fun hmem => hd _ hmem (by simp), hn⟩, ?_⟩
      intro r hr
      rcases List.mem_cons.mp hr with rfl | hr'
      · exact h
      · intro hw
        exact hd r hr' (by simp [hw])

theorem writePlanAux_ok_nodup (rules : TagMap) (rf : String) :
    ∀ (rs : List Resource) (w out : List Row),
      writePlanAux rules rf rs w = .ok out → out.Nodup ∧ ∀ r ∈ out, r ∉ w := by
  intro rs
  induction rs with
  | nil =>
    intro w out h
    simp only [writePlanAux] at h
    injection h with h
    subst h
    simp
  | cons res rs ih =>
    intro w out h
    simp only [writePlanAux] at h
    split at h
    · exact ih w out h
    · split at h
      · exact absurd h (by simp)
      · split at h
        · exact ih w out h
        · cases hr : writePlanAux rules rf rs (emitRows res.arn (matchTags rules res) w).2 with
          | error e => rw [hr] at h; exact absurd h (by simp)
          | ok rest =>
            rw [hr] at h
            injection h with h
            subst h
            obtain ⟨hn, hd⟩ := ih _ rest hr
            obtain ⟨en, ed⟩ := emitRows_nodup res.arn (matchTags rules res) w
            rw [emitRows_snd] at hd
            constructor
            · refine List.Nodup.append en hn ?_
              intro a ha hb
              exact hd a hb (by simp [ha])
            · intro r hr'
              rcases List.mem_append.mp hr' with h' | h'
              · exact ed r h'
              · intro hw
                exact hd r h' (by simp [hw])

theorem writePlanAux_cons_skip (rules : TagMap) (rf : String) (res : Resource)
    (rs : List Resource) (w : List Row)
    (h : (res.arn == "" || res.service == "") = true ∨
         ∃ reg, List.get? (pySplitColon res.arn) 3 = some reg ∧ (reg != "" && reg != rf) = true) :
    writePlanAux rules rf (res :: rs) w = writePlanAux rules rf rs w := by
  rcases h with h | ⟨reg, hg, hc⟩
  · simp only [writePlanAux, if_pos h]
  · by_cases b : (res.arn == "" || res.service == "") = true
    · simp only [writePlanAux, if_pos b]
    · simp only [writePlanAux, if_neg b, hg, if_pos hc]

theorem writePlanAux_skip_middle (rules : TagMap) (rf : String) (res : Resource)
    (hskip : ∀ rs w, writePlanAux rules rf (res :: rs) w = writePlanAux rules rf rs w) :
    ∀ (xs ys : List Resource) (w : List Row),
      writePlanAux rules rf (xs ++ res :: ys) w = writePlanAux rules rf (xs ++ ys) w := by
  intro xs
  induction xs with
  | nil => intro ys w; exact hskip ys w
  | cons x xs ih =>
    intro ys w
    simp only [List.cons_append, writePlanAux]
    by_cases b : (x.arn == "" || x.service == "") = true
    · rw [if_pos b, if_pos b]
      exact ih ys w
    · rw [if_neg b, if_neg b]
      cases hg : List.get? (pySplitColon x.arn) 3 with
      | none => simp only [hg]
      | some reg =>
        simp only [hg]
        by_cases h2 : (reg != "" && reg != rf) = true
        · rw [if_pos h2, if_pos h2]
          exact ih ys w
        · rw [if_neg h2, if_neg h2]
          simp only [List.append_eq]
          rw [ih ys (emitRows x.arn (matchTags rules x) w).2]

/-- C1: for every rule set and resource list, a successful plan contains no
duplicate `(identifier, tagKey, tagValue)` triple: each output row appears at
most once, however many rules produced it. -/
theorem writePlan_no_duplicate_rows (rules : TagMap) (regionFilter : String)
    (resources : List Resource) (out : List Row)
    (h : writePlan rules regionFilter resources = .ok out) : out.Nodup :=
  (writePlanAux_ok_nodup rules regionFilter resources [] out h).1

/-- Witness for C1 at a concrete input: two rules that produce the same
triple for the same resource yield a single row. -/
theorem writePlan_no_duplicate_rows_witness :
    ([(("a:b:c:w:e" : String), ("K" : String), ("V" : String))] : List Row).Nodup :=
  writePlan_no_duplicate_rows
    [("s", [⟨"K", "V", false⟩]), ("a:b:c:w:e", [⟨"K", "V", false⟩])] "w"
    [⟨"a:b:c:w:e", "s", "", []⟩] _ (by decide)

/-- C2: the catch-all rules stored under filter key `"all"` appear in a
resource's matched tags exactly when steps 1–3 produced at least one tag for
that resource. -/
theorem catch_all_iff_matched (rules : TagMap) (res : Resource) (r : TagRule)
    (h : r ∈ tmFind rules "all") :
    toTag r ∈ matchTags rules res ↔ matchTagsPre rules res ≠ [] := by
  unfold matchTags
  by_cases hp : (matchTagsPre rules res).isEmpty = true
  · rw [if_pos hp]
    simp [List.isEmpty_iff.mp hp]
  · rw [if_neg hp]
    have hne : matchTagsPre rules res ≠ [] := by
      simpa [List.isEmpty_iff] using hp
    simp only [hne, iff_true, ne_eq, not_false_iff]
    exact List.mem_append.mpr (Or.inr (List.mem_map.mpr ⟨r, h, rfl⟩))

/-- Witness for C2 at a concrete input: a resource matched by a service rule
receives the `all` rule's tag. -/
theorem catch_all_iff_matched_witness :
    toTag ⟨"O", "T", false⟩ ∈
        matchTags [("s", [⟨"B", "D", false⟩]), ("all", [⟨"O", "T", false⟩])] ⟨"a", "s", "", []⟩ ↔
      matchTagsPre [("s", [⟨"B", "D", false⟩]), ("all", [⟨"O", "T", false⟩])] ⟨"a", "s", "", []⟩ ≠ [] :=
  catch_all_iff_matched _ _ _ (by decide)

/-- C3: a resource whose identifier's 4th `:`-field is non-empty and differs
from the region filter contributes nothing to the plan: the output (and even
the error behaviour) is as if the resource were absent. -/
theorem region_mismatch_skipped (rules : TagMap) (rf : String) (xs ys : List Resource)
    (res : Resource) (reg : String)
    (h1 : List.get? (pySplitColon res.arn) 3 = some reg) (h2 : reg ≠ "") (h3 : reg ≠ rf) :
    writePlan rules rf (xs ++ res :: ys) = writePlan rules rf (xs ++ ys) := by
  unfold writePlan
  refine writePlanAux_skip_middle rules rf res (fun rs w => ?_) xs ys []
  refine writePlanAux_cons_skip rules rf res rs w (Or.inr ⟨reg, h1, ?_⟩)
  rw [Bool.and_eq_true, bne_iff_ne, bne_iff_ne]
  exact ⟨h2, h3⟩

/-- Witness for C3 at a concrete input: a resource in region `eu` is dropped
when the filter is `us`. -/
theorem region_mismatch_skipped_witness :
    writePlan [("s", [⟨"K", "V", false⟩])] "us" [⟨"a:b:c:eu:x", "s", "", []⟩] =
      writePlan [("s", [⟨"K", "V", false⟩])] "us" [] :=
  region_mismatch_skipped _ "us" [] [] ⟨"a:b:c:eu:x", "s", "", []⟩ "eu"
    (by decide) (by decide) (by decide)

/-- C9: a resource record with a missing (empty) identifier or service is
skipped without error: the plan is exactly the plan over the remaining
resources. -/
theorem malformed_resource_skipped (rules : TagMap) (rf : String) (xs ys : List Resource)
    (res : Resource) (h : res.arn = "" ∨ res.service = "") :
    writePlan rules rf (xs ++ res :: ys) = writePlan rules rf (xs ++ ys) := by
  unfold writePlan
  refine writePlanAux_skip_middle rules rf res (fun rs w => ?_) xs ys []
  refine writePlanAux_cons_skip rules rf res rs w (Or.inl ?_)
  rcases h with h | h <;> simp [h]

/-- Witness for C9 at a concrete input: a record with no identifier produces
no rows and planning continues. -/
theorem malformed_resource_skipped_witness :
    writePlan [("s", [⟨"K", "V", false⟩])] "w" [⟨"", "s", "", []⟩, ⟨"a:b:c:w:e", "s", "", []⟩] =
      writePlan [("s", [⟨"K", "V", false⟩])] "w" [⟨"a:b:c:w:e", "s", "", []⟩] :=
  malformed_resource_skipped _ "w" [] [⟨"a:b:c:w:e", "s", "", []⟩] ⟨"", "s", "", []⟩ (Or.inl rfl)

/-- C10: for a resource with non-empty identifier and service whose
identifier splits into fewer than four `:`-fields, the plan builder fails
with the modelled `IndexError` of `arn.split(":")[3]` — it is not total over
such identifiers. -/
theorem short_arn_index_error (rules : TagMap) (rf : String) (rs : List Resource)
    (res : Resource) (h1 : res.arn ≠ "") (h2 : res.service ≠ "")
    (h3 : (pySplitColon res.arn).length < 4) :
    writePlan rules rf (res :: rs) = .error .indexError := by
  unfold writePlan
  have hb : (res.arn == "" || res.service == "") = false := by
    simp [h1, h2]
  have hg : List.get? (pySplitColon res.arn) 3 = none := by
    rw [List.get?_eq_none]
    omega
  simp only [writePlanAux, hb, Bool.false_eq_true, if_false, hg]

/-- Witness for C10 at a concrete input: an identifier with a single field
makes the plan builder fail. -/
theorem short_arn_index_error_witness :
    writePlan [("s", [⟨"K", "V", false⟩])] "w" [⟨"x", "s", "", []⟩] = .error .indexError :=
  short_arn_index_error _ "w" [] ⟨"x", "s", "", []⟩ (by decide) (by decide) (by decide)

/-- C7: the plan builder is deterministic — identical rule and resource
inputs give identical rows — and rows accumulate in resource-iteration
order: the plan of `xs ++ ys` is the plan of `xs` followed by the plan of
`ys` continued from the rows already written. -/
theorem writePlan_deterministic_ordered (rules : TagMap) (rf : String) :
    (∀ resources, writePlan rules rf resources = writePlan rules rf resources) ∧
    ∀ (xs ys : List Resource) (w : List Row),
      writePlanAux rules rf (xs ++ ys) w =
        match writePlanAux rules rf xs w with
        | .error e => .error e
        | .ok out1 =>
          match writePlanAux rules rf ys (w ++ out1) with
          | .error e => .error e
          | .ok out2 => .ok (out1 ++ out2) := by
  refine ⟨fun _ => rfl, ?_⟩
  intro xs
  induction xs with
  | nil =>
    intro ys w
    simp only [List.nil_append, writePlanAux, List.append_nil]
    cases h : writePlanAux rules rf ys w <;> simp
  | cons x xs ih =>
    intro ys w
    simp only [List.cons_append, writePlanAux]
    by_cases b : (x.arn == "" || x.service == "") = true
    · rw [if_pos b, if_pos b]
      exact ih ys w
    · rw [if_neg b, if_neg b]
      cases hg : List.get? (pySplitColon x.arn) 3 with
      | none => simp only [hg]
      | some reg =>
        simp only [hg]
        by_cases h2 : (reg != "" && reg != rf) = true
        · rw [if_pos h2, if_pos h2]
          exact ih ys w
        · rw [if_neg h2, if_neg h2]
          simp only [List.append_eq]
          rw [ih ys (emitRows x.arn (matchTags rules x) w).2]
          cases h1 : writePlanAux rules rf xs (emitRows x.arn (matchTags rules x) w).2 with
          | error e => rfl
          | ok o1 =>
            dsimp only
            have he : (emitRows x.arn (matchTags rules x) w).2 ++ o1 =
                w ++ ((emitRows x.arn (matchTags rules x) w).1 ++ o1) := by
              rw [emitRows_snd]
              simp
            rw [he]
            cases h2' : writePlanAux rules rf ys
                (w ++ ((emitRows x.arn (matchTags rules x) w).1 ++ o1)) with
            | error e => rfl
            | ok o2 => simp

theorem mem_setAdd (l : List String) (x s : String) : s ∈ setAdd l x ↔ s ∈ l ∨ s = x := by
  unfold setAdd
  split
  case isTrue h =>
    constructor
    · exact Or.inl
    · rintro (h' | rfl)
      · exact h'
      · exact h
  case isFalse h => simp

/-- C5 counterexample: `get_match_keys` adds the identifier and the name
verbatim, so the returned entries are not all lower-cased as the claim
states. -/
theorem match_keys_not_lowercased_cex :
    get_match_keys "s3" "bucket" "Arn:X" "Nm" = ["Arn:X", "Nm", "s3:bucket", "s3"] ∧
      pyLower "Arn:X" ≠ "Arn:X" ∧ pyLower "Nm" ≠ "Nm" := by decide

/-- C5 amended: the match-key set contains exactly the identifier verbatim
(when non-empty), the name verbatim (when non-empty), the lower-cased type
key (when the resourceType is non-empty), and the lower-cased service;
identifier and name are not lower-cased. -/
theorem get_match_keys_characterized (service subtype arn name s : String) :
    s ∈ get_match_keys service subtype arn name ↔
      ((arn ≠ "" ∧ s = arn) ∨ (name ≠ "" ∧ s = name) ∨
        (subtype ≠ "" ∧ s = typeKeyOf service subtype) ∨ s = pyLower service) := by
  unfold get_match_keys
  by_cases h1 : arn = "" <;> by_cases h2 : name = "" <;> by_cases h3 : subtype = "" <;>
    simp [h1, h2, h3, mem_setAdd] <;> tauto

/-- The rule map loaded from the single CSV record `~web,Application,CRM`. -/
def rulesTildeWeb : TagMap := [("web", [⟨"Application", "CRM", true⟩])]

/-- C4 counterexample: the partial-name step tests the lower-cased filter
key against the name as stored (`rule_key in name_value`), so the rule
`~web` does not match the name `"WEB"` even though `"web"` is a substring of
the lower-cased name — the comparison is not case-insensitive. -/
theorem partial_name_case_sensitive_cex :
    load_tag_rules "t.csv" [⟨some "~web", some "Application", some "CRM"⟩] = .ok rulesTildeWeb ∧
      partialNameTags rulesTildeWeb "WEB" = [] ∧
      strIn (pyLower "web") (pyLower "WEB") = true := by decide

/-- C4 amended: for a resource with a non-empty derived name, a partial
rule's tag is emitted by the partial-name step exactly when its (lower-cased)
filter key is a literal substring of the name as stored — case-sensitive on
the name side; so `~web` matches `"web-01"` and `"new-web"` but not
`"WEB"`. -/
theorem partial_name_match_characterized :
    (∀ (rules : TagMap) (name : String) (t : Tag),
        t ∈ partialNameTags rules name ↔
          (name ≠ "" ∧ ∃ p ∈ rules, ∃ r ∈ p.2,
            r.isPart = true ∧ strIn p.1 name = true ∧ toTag r = t)) ∧
      partialNameTags rulesTildeWeb "web-01" = [⟨"Application", "CRM"⟩] ∧
      partialNameTags rulesTildeWeb "new-web" = [⟨"Application", "CRM"⟩] ∧
      partialNameTags rulesTildeWeb "WEB" = [] := by
  refine ⟨?_, by decide, by decide, by decide⟩
  intro rules name t
  unfold partialNameTags
  split
  case isTrue h => simp [h]
  case isFalse h =>
    simp only [List.mem_flatMap, List.mem_map, List.mem_filter, Bool.and_eq_true]
    constructor
    · rintro ⟨p, hp, r, ⟨hr, hpart, hin⟩, rfl⟩
      exact ⟨h, p, hp, r, hr, hpart, hin, rfl⟩
    · rintro ⟨-, p, hp, r, hr, hpart, hin, rfl⟩
      exact ⟨p, hp, r, ⟨hr, hpart, hin⟩, rfl⟩


theorem mem_tagRuleTagsFor (resTags : List Tag) (k : String) (rl : List TagRule) (t : Tag) :
    t ∈ tagRuleTagsFor resTags k rl ↔
      ∃ tk tv, parseTagFilter k = some (tk, tv) ∧
        (∃ tg ∈ resTags, pyLower tg.key = pyLower tk ∧ tagValueMatches tv tg.value = true) ∧
        ∃ r ∈ rl, toTag r = t := by
  unfold tagRuleTagsFor
  cases hp : parseTagFilter k with
  | none => simp
  | some p =>
    obtain ⟨tk, tv⟩ := p
    simp only [List.mem_flatMap, Option.some_inj, Prod.mk.injEq]
    constructor
    · rintro ⟨tg, htg, hmem⟩
      by_cases hc : (pyLower tg.key == pyLower tk && tagValueMatches tv tg.value) = true
      · rw [if_pos hc] at hmem
        obtain ⟨r, hr, hrt⟩ := List.mem_map.mp hmem
        rw [Bool.and_eq_true, beq_iff_eq] at hc
        exact ⟨tk, tv, ⟨rfl, rfl⟩, ⟨tg, htg, hc.1, hc.2⟩, r, hr, hrt⟩
      · rw [if_neg hc] at hmem
        exact absurd hmem (List.not_mem_nil t)
    · rintro ⟨tk', tv', ⟨rfl, rfl⟩, ⟨tg, htg, hkey, hval⟩, r, hr, hrt⟩
      refine ⟨tg, htg, ?_⟩
      have hc : (pyLower tg.key == pyLower tk && tagValueMatches tv tg.value) = true := by
        rw [Bool.and_eq_true, beq_iff_eq]
        exact ⟨hkey, hval⟩
      rw [if_pos hc]
      exact List.mem_map.mpr ⟨r, hr, hrt⟩

/-- C6: a tag-based rule — filter key of the form `tag:<tagKey>:<tagValueFilter>` —
emits its tags for a resource exactly when some resource tag has key equal to
`<tagKey>` case-insensitively and value satisfying the filter: a
case-insensitive substring test when the filter starts with `~` (stripped),
case-insensitive equality otherwise. -/
theorem tag_rule_match_characterized (rules : TagMap) (resTags : List Tag) (t : Tag) :
    t ∈ tagRuleTags rules resTags ↔
      ∃ p ∈ rules, ∃ tk tv, parseTagFilter p.1 = some (tk, tv) ∧
        (∃ tg ∈ resTags, pyLower tg.key = pyLower tk ∧
          (if pyStartsWith tv "~" then strIn (pyLower (pyDrop1 tv)) (pyLower tg.value)
           else pyLower tg.value == pyLower tv) = true) ∧
        ∃ r ∈ p.2, toTag r = t := by
  unfold tagRuleTags
  simp only [List.mem_flatMap, mem_tagRuleTagsFor, tagValueMatches]

theorem loadTagRulesAux_error (rows : List RawRow)
    (h : (∃ r ∈ rows, r.Filter = none) ∨
         (∃ r ∈ rows, pyTrim (r.Filter.getD "") ≠ "" ∧
            pyStartsWith (pyTrim (r.Filter.getD "")) "#" = false ∧
            (r.TagKey = none ∨ r.TagValue = none))) :
    ∀ m, loadTagRulesAux rows m = .error .missingColumn := by
  induction rows with
  | nil =>
    rcases h with ⟨r, hr, -⟩ | ⟨r, hr, -⟩ <;> exact absurd hr (List.not_mem_nil r)
  | cons r0 rs ih =>
    intro m
    simp only [loadTagRulesAux]
    cases hf : r0.Filter with
    | none => rfl
    | some f0 =>
      dsimp only
      by_cases hskip : (pyTrim f0 == "" || pyStartsWith (pyTrim f0) "#") = true
      · rw [if_pos hskip]
        refine ih ?_ m
        rcases h with ⟨r, hr, hnone⟩ | ⟨r, hr, hcond⟩
        · rcases List.mem_cons.mp hr with rfl | hr'
          · exact absurd hnone (by simp [hf])
          · exact Or.inl ⟨r, hr', hnone⟩
        · rcases List.mem_cons.mp hr with rfl | hr'
          · rw [hf] at hcond
            simp only [Option.getD_some] at hcond
            rw [Bool.or_eq_true, beq_iff_eq] at hskip
            rcases hskip with hs | hs
            · exact absurd hs hcond.1
            · exact absurd hs (by simp [hcond.2.1])
          · exact Or.inr ⟨r, hr', hcond⟩
      · rw [if_neg hskip]
        cases hk : r0.TagKey with
        | none => rfl
        | some k =>
          cases hv : r0.TagValue with
          | none => rfl
          | some v =>
            have hrs : (∃ r ∈ rs, r.Filter = none) ∨
                (∃ r ∈ rs, pyTrim (r.Filter.getD "") ≠ "" ∧
                  pyStartsWith (pyTrim (r.Filter.getD "")) "#" = false ∧
                  (r.TagKey = none ∨ r.TagValue = none)) := by
              rcases h with ⟨r, hr, hnone⟩ | ⟨r, hr, hcond⟩
              · rcases List.mem_cons.mp hr with rfl | hr'
                · exact absurd hnone (by simp [hf])
                · exact Or.inl ⟨r, hr', hnone⟩
              · rcases List.mem_cons.mp hr with rfl | hr'
                · rcases hcond.2.2 with hc | hc
                  · exact absurd hc (by simp [hk])
                  · exact absurd hc (by simp [hv])
                · exact Or.inr ⟨r, hr', hcond⟩
            dsimp only
            split <;> exact ih hrs _

/-- C8: a rule file with a bad extension, or lacking a required column
(`Filter`, `TagKey` or `TagValue`) for a row the loader must read, makes
rule loading fail with an input-format error; the pipeline aborts with that
error no matter what resources exist, so no resource is processed. -/
theorem rule_file_error_aborts (path : String) (rows : List RawRow) (rf : String)
    (resources : List Resource)
    (h : pyEndsWith path ".csv" = false ∨
         (∃ r ∈ rows, r.Filter = none) ∨
         (∃ r ∈ rows, pyTrim (r.Filter.getD "") ≠ "" ∧
            pyStartsWith (pyTrim (r.Filter.getD "")) "#" = false ∧
            (r.TagKey = none ∨ r.TagValue = none))) :
    isFmtError (runMain path rows rf resources) = true ∧
      runMain path rows rf resources = runMain path rows rf [] := by
  have hload : ∃ e, load_tag_rules path rows = .error e := by
    cases hval : pyEndsWith path ".csv" with
    | false => exact ⟨.badExtension, by simp [load_tag_rules, hval]⟩
    | true =>
      rcases h with hbad | hcol
      · rw [hval] at hbad
        cases hbad
      · refine ⟨.missingColumn, ?_⟩
        simp only [load_tag_rules, hval, Bool.not_true, Bool.false_eq_true, if_false]
        exact loadTagRulesAux_error rows hcol []
  obtain ⟨e, he⟩ := hload
  constructor
  · simp [runMain, he, isFmtError]
  · simp [runMain, he]

/-- Witness for C8 at a concrete input: a rule row whose `TagKey` column is
missing aborts the pipeline before any resource is seen. -/
theorem rule_file_error_aborts_witness :
    isFmtError (runMain "tags.csv" [⟨some "ec2", none, some "Daily"⟩] "w"
        [⟨"a:b:c:w:e", "s", "", []⟩]) = true ∧
      runMain "tags.csv" [⟨some "ec2", none, some "Daily"⟩] "w" [⟨"a:b:c:w:e", "s", "", []⟩] =
        runMain "tags.csv" [⟨some "ec2", none, some "Daily"⟩] "w" [] :=
  rule_file_error_aborts _ _ _ _ (Or.inr (Or.inr (by decide)))
